import Mathlib

/-!
Shallow embedding of `payload_dumper/dumper.py`: the OTA payload dumper's
data model (extents, install operations, manifest), the byte-store models of
the files it touches, the operation executor `data_for_op`, the per-partition
driver `dump_part`, the metadata parser `parse_metadata`, the prefetch loop of
`run`, the result collection of `multiprocess_partitions`/`main`, and the
helper `verify_contiguous`.  Bytes are modelled as `Nat`, files as explicit
cursor-plus-contents states; external libraries (lzma, bz2, bsdiff4) are
parameters of the `Dumper` state.
-/

/-- Operation types of `update_metadata_pb2.InstallOperation` that
`data_for_op` dispatches on; `other` stands for any unrecognized enum value
(the `else` branch printing "Unsupported type"). -/
inductive OpType where
  | REPLACE
  | REPLACE_BZ
  | REPLACE_XZ
  | SOURCE_COPY
  | SOURCE_BSDIFF
  | ZERO
  | other (code : Nat)
deriving DecidableEq

/-- An extent: a run of `num_blocks` fixed-size blocks starting at block
`start_block` (protobuf `Extent`). -/
structure Extent where
  start_block : Nat
  num_blocks : Nat
deriving DecidableEq

/-- The fields of a protobuf `InstallOperation` that the dumper reads. -/
structure InstallOperation where
  type : OpType
  data_offset : Nat
  data_length : Nat
  src_extents : List Extent
  dst_extents : List Extent
deriving DecidableEq

/-- The fields of a protobuf `PartitionUpdate` that the dumper reads. -/
structure PartitionUpdate where
  partition_name : String
  operations : List InstallOperation
deriving DecidableEq

/-- The fields of a protobuf `DeltaArchiveManifest` that the dumper reads. -/
structure DeltaArchiveManifest where
  block_size : Nat
  partitions : List PartitionUpdate
deriving DecidableEq

/-- One element of the prefetched operation list built in `Dumper.run`:
the operation together with its raw payload bytes. -/
structure OpWithData where
  operation : InstallOperation
  data : List Nat
deriving DecidableEq

/-- The `Dumper` state that `data_for_op` consults: the `--diff` flag, the
manifest's `block_size`, and the external codecs (`lzma.LZMADecompressor`,
`bz2.BZ2Decompressor`, `bsdiff4.patch`) as opaque total functions. -/
structure Dumper where
  diff : Bool
  block_size : Nat
  xz_decompress : List Nat → List Nat
  bz_decompress : List Nat → List Nat
  bsdiff_patch : List Nat → List Nat → List Nat

/-- Overwrite the byte store `g` with the bytes `d` starting at offset `off`;
positions outside `[off, off + d.length)` keep their old value. -/
def writeBytes (g : Nat → Nat) (off : Nat) (d : List Nat) : Nat → Nat :=
  fun i => if off ≤ i ∧ i - off < d.length then d.getD (i - off) 0 else g i

/-- A writable image file (`out_file` in the source): a seek position plus a
total byte store.  Unwritten bytes of the fresh truncated file read as 0. -/
structure OutFile where
  pos : Nat
  contents : Nat → Nat

/-- `out_file.seek(n)`. -/
def OutFile.seek (f : OutFile) (n : Nat) : OutFile :=
  ⟨n, f.contents⟩

/-- `out_file.write(d)`: writes at the current position and advances it. -/
def OutFile.write (f : OutFile) (d : List Nat) : OutFile :=
  ⟨f.pos + d.length, writeBytes f.contents f.pos d⟩

/-- The fresh, truncated output file opened by `dump_part` (`open(..., "wb")`). -/
def emptyOut : OutFile :=
  ⟨0, fun _ => 0⟩

/-- A read-only file (`old_file`, `payloadfile`): a seek position plus finite
contents.  Reads past the end are clamped, as for a real file. -/
structure RFile where
  pos : Nat
  contents : List Nat

/-- `f.seek(n)`. -/
def RFile.seek (f : RFile) (n : Nat) : RFile :=
  ⟨n, f.contents⟩

/-- `f.read(n)`: returns at most `n` bytes from the current position and
advances the position by the number of bytes actually read. -/
def RFile.read (f : RFile) (n : Nat) : List Nat × RFile :=
  let d := (f.contents.drop f.pos).take n
  (d, ⟨f.pos + d.length, f.contents⟩)

/-- An in-memory byte buffer (`io.BytesIO`, the `tmp_buff` of the
SOURCE_BSDIFF branch): seekable, readable and writable. -/
structure ByteBuf where
  pos : Nat
  contents : List Nat

/-- `b.seek(n)`. -/
def ByteBuf.seek (b : ByteBuf) (n : Nat) : ByteBuf :=
  ⟨n, b.contents⟩

/-- `b.write(d)`: overwrites at the current position, zero-padding if the
position is past the end, keeping any tail beyond the written range. -/
def ByteBuf.write (b : ByteBuf) (d : List Nat) : ByteBuf :=
  let padded := b.contents ++ List.replicate (b.pos - b.contents.length) 0
  ⟨b.pos + d.length, padded.take b.pos ++ d ++ padded.drop (b.pos + d.length)⟩

/-- `b.read(n)`: clamped read advancing the position. -/
def ByteBuf.read (b : ByteBuf) (n : Nat) : List Nat × ByteBuf :=
  let d := (b.contents.drop b.pos).take n
  (d, ⟨b.pos + d.length, b.contents⟩)

/-- `b.read()` with no size: reads everything from the current position. -/
def ByteBuf.readAll (b : ByteBuf) : List Nat × ByteBuf :=
  let d := b.contents.drop b.pos
  (d, ⟨b.pos + d.length, b.contents⟩)

/-- How an operation or a partition task fails: `systemExit c` models
`sys.exit(c)` (a `SystemExit`, which is not an `Exception`), `localError`
models any ordinary exception raised while materializing a partition
(e.g. an `IndexError` on an empty `dst_extents`). -/
inductive DumpError where
  | systemExit (code : Int)
  | localError
deriving DecidableEq

/-- The source's `verify_contiguous` loop: `blocks` starts at 0 and each
extent's `start_block` must equal the running total of `num_blocks`. -/
def verify_contiguous_loop (exts : List Extent) (blocks : Nat) : Bool :=
  match exts with
  | [] => true
  | ext :: rest =>
    if ext.start_block ≠ blocks then false
    else verify_contiguous_loop rest (blocks + ext.num_blocks)

/-- `verify_contiguous(exts)` from the source. -/
def verify_contiguous (exts : List Extent) : Bool :=
  verify_contiguous_loop exts 0

/-- The SOURCE_COPY loop of `data_for_op`: for each src extent, seek the old
file to `start_block*block_size`, read `num_blocks*block_size` bytes, and
write them to the output file at its current (advancing) position.  Returns
the Python `data` variable (the last chunk read), the output file and the
old file. -/
def source_copy_loop (bs : Nat) (exts : List Extent) (old_file : RFile)
    (out_file : OutFile) (data : List Nat) : List Nat × OutFile × RFile :=
  match exts with
  | [] => (data, out_file, old_file)
  | ext :: rest =>
    let old_file := old_file.seek (ext.start_block * bs)
    let (d, old_file) := old_file.read (ext.num_blocks * bs)
    let out_file := out_file.write d
    source_copy_loop bs rest old_file out_file d

/-- The SOURCE_BSDIFF gather loop: concatenate every src extent's bytes from
the old file into `tmp_buff`. -/
def bsdiff_gather (bs : Nat) (exts : List Extent) (old_file : RFile)
    (tmp : ByteBuf) : ByteBuf × RFile :=
  match exts with
  | [] => (tmp, old_file)
  | ext :: rest =>
    let old_file := old_file.seek (ext.start_block * bs)
    let (od, old_file) := old_file.read (ext.num_blocks * bs)
    let tmp := tmp.write od
    bsdiff_gather bs rest old_file tmp

/-- The SOURCE_BSDIFF scatter loop: for each dst extent, seek `tmp_buff` to
block offset `n`, read `num_blocks*block_size` bytes, and write them to the
output file at the extent's own byte offset; `n` accumulates `num_blocks`. -/
def bsdiff_scatter (bs : Nat) (exts : List Extent) (tmp : ByteBuf)
    (out_file : OutFile) (n : Nat) (data : List Nat) :
    List Nat × OutFile × ByteBuf :=
  match exts with
  | [] => (data, out_file, tmp)
  | ext :: rest =>
    let tmp := tmp.seek (n * bs)
    let (d, tmp) := tmp.read (ext.num_blocks * bs)
    let out_file := out_file.seek (ext.start_block * bs)
    let out_file := out_file.write d
    bsdiff_scatter bs rest tmp out_file (n + ext.num_blocks) d

/-- The ZERO loop of `data_for_op`: write `num_blocks*block_size` zero bytes
at each dst extent's byte offset. -/
def zero_loop (bs : Nat) (exts : List Extent) (out_file : OutFile) : OutFile :=
  match exts with
  | [] => out_file
  | ext :: rest =>
    let out_file := out_file.seek (ext.start_block * bs)
    let out_file := out_file.write (List.replicate (ext.num_blocks * bs) 0)
    zero_loop bs rest out_file

/-- `Dumper.data_for_op`: apply one operation (with its prefetched payload
bytes) to the output file, reading the old image when in differential mode.
Returns the Python `data` variable's final value, the output file state and
the old file state; errors model `sys.exit` (mode/unsupported-type failures)
and in-branch exceptions. -/
def data_for_op (self : Dumper) (opd : OpWithData) (out_file : OutFile)
    (old_file : RFile) : Except DumpError (List Nat × OutFile × RFile) :=
  let data := opd.data
  let op := opd.operation
  match op.type with
  | OpType.REPLACE_XZ =>
    match op.dst_extents with
    | [] => Except.error DumpError.localError
    | e0 :: _ =>
      let data := self.xz_decompress data
      let out_file := (out_file.seek (e0.start_block * self.block_size)).write data
      Except.ok (data, out_file, old_file)
  | OpType.REPLACE_BZ =>
    match op.dst_extents with
    | [] => Except.error DumpError.localError
    | e0 :: _ =>
      let data := self.bz_decompress data
      let out_file := (out_file.seek (e0.start_block * self.block_size)).write data
      Except.ok (data, out_file, old_file)
  | OpType.REPLACE =>
    match op.dst_extents with
    | [] => Except.error DumpError.localError
    | e0 :: _ =>
      let out_file := (out_file.seek (e0.start_block * self.block_size)).write data
      Except.ok (data, out_file, old_file)
  | OpType.SOURCE_COPY =>
    if self.diff then
      match op.dst_extents with
      | [] => Except.error DumpError.localError
      | e0 :: _ =>
        let out_file := out_file.seek (e0.start_block * self.block_size)
        Except.ok (source_copy_loop self.block_size op.src_extents old_file out_file data)
    else Except.error (DumpError.systemExit (-2))
  | OpType.SOURCE_BSDIFF =>
    if self.diff then
      match op.dst_extents with
      | [] => Except.error DumpError.localError
      | e0 :: _ =>
        let out_file := out_file.seek (e0.start_block * self.block_size)
        let tmp : ByteBuf := ⟨0, []⟩
        let (tmp, old_file) := bsdiff_gather self.block_size op.src_extents old_file tmp
        let tmp := tmp.seek 0
        let (old_data, tmp) := tmp.readAll
        let tmp := tmp.seek 0
        let tmp := tmp.write (self.bsdiff_patch old_data data)
        let tmp := tmp.seek 0
        let r := bsdiff_scatter self.block_size op.dst_extents tmp out_file 0 data
        Except.ok (r.1, r.2.1, old_file)
    else Except.error (DumpError.systemExit (-3))
  | OpType.ZERO =>
    Except.ok (data, zero_loop self.block_size op.dst_extents out_file, old_file)
  | OpType.other _ => Except.error (DumpError.systemExit (-1))

/-- The operation loop of `Dumper.dump_part`: apply each operation in order;
on failure, stop and report the error together with the output file as
already written (the file stays on disk). -/
def dump_part_loop (self : Dumper) (ops : List OpWithData) (out_file : OutFile)
    (old_file : RFile) : OutFile × RFile × Option DumpError :=
  match ops with
  | [] => (out_file, old_file, none)
  | op :: rest =>
    match data_for_op self op out_file old_file with
    | Except.error e => (out_file, old_file, some e)
    | Except.ok (_, out_file, old_file) => dump_part_loop self rest out_file old_file

/-- `Dumper.dump_part`: opens a fresh truncated output file and applies every
operation of the partition in manifest order. -/
def dump_part (self : Dumper) (ops : List OpWithData) (old_file : RFile) :
    OutFile × RFile × Option DumpError :=
  dump_part_loop self ops emptyOut old_file

/-- Models Python's `"...".split(",")` over the character list (an accumulator
for the current field, reversed on emit). -/
def splitCommaChars : List Char → List Char → List String
  | [], acc => [String.mk acc.reverse]
  | c :: rest, acc =>
    if c = ',' then String.mk acc.reverse :: splitCommaChars rest []
    else splitCommaChars rest (c :: acc)

/-- Models Python's `str.strip()`: drop whitespace from both ends. -/
def stripChars (s : String) : String :=
  String.mk (((s.data.dropWhile Char.isWhitespace).reverse.dropWhile
    Char.isWhitespace).reverse)

/-- Models `self.images.split(",")`. -/
def split_images (s : String) : List String :=
  splitCommaChars s.data []

/-- The partition-selection loop at the top of `Dumper.run`: every manifest
partition when `images` is empty, otherwise, for each comma-separated and
stripped name in listed order, the first manifest partition carrying that
name (missing names are only warned about). -/
def select_partitions (dam_parts : List PartitionUpdate) (images : String) :
    List PartitionUpdate :=
  if images = "" then dam_parts
  else
    ((split_images images).map stripChars).foldl
      (fun acc image =>
        match dam_parts.find? (fun p => p.partition_name == image) with
        | some p => acc ++ [p]
        | none => acc) []

/-- Events of a run touching the payload source or starting a partition task. -/
inductive Event where
  | payloadSeek (off : Nat)
  | payloadRead (len : Nat)
  | payloadClose
  | partTask (name : String)
deriving DecidableEq

/-- Whether an event touches the payload source (seek, read or close). -/
def isSourceAccess : Event → Bool
  | Event.partTask _ => false
  | _ => true

/-- The prefetch loop of `Dumper.run` as its trace of payload-source
accesses: for each selected partition, for each operation in order, a seek to
`data_offset + op.data_offset` followed by a read of `data_length` bytes. -/
def prefetch_trace (d : Nat) (parts : List PartitionUpdate) : List Event :=
  parts.foldl (fun acc p =>
    p.operations.foldl (fun acc2 op =>
      acc2 ++ [Event.payloadSeek (d + op.data_offset),
               Event.payloadRead op.data_length]) acc) []

/-- `Dumper.run` as an event trace: select partitions, prefetch every
operation's payload bytes, close the payload source, then hand one concurrent
task per partition to the scheduling layer. -/
def run_trace (d : Nat) (dam_parts : List PartitionUpdate) (images : String) :
    List Event :=
  let parts := select_partitions dam_parts images
  prefetch_trace d parts ++ [Event.payloadClose] ++
    parts.map (fun p => Event.partTask p.partition_name)

/-- Specification-side flat description of the prefetch accesses for the
given partitions, in the given partition order. -/
def prefetch_events (d : Nat) (parts : List PartitionUpdate) : List Event :=
  (parts.map (fun p => (p.operations.map (fun op =>
    [Event.payloadSeek (d + op.data_offset),
     Event.payloadRead op.data_length])).flatten)).flatten

/-- The claim's reading of the prefetch order: payload accesses in manifest
order (the manifest's partition list filtered to the selected names). -/
def prefetch_events_manifest_order (d : Nat) (dam_parts : List PartitionUpdate)
    (images : String) : List Event :=
  prefetch_events d (dam_parts.filter (fun p =>
    (select_partitions dam_parts images).any
      (fun q => q.partition_name == p.partition_name)))

/-- One task handed to `multiprocess_partitions`: a partition name, its
prefetched operations, and (in differential mode) its old image. -/
structure PartTask where
  name : String
  ops : List OpWithData
  old : RFile

/-- The outcomes of the `dump_part` tasks of `Dumper.multiprocess_partitions`:
each partition materializes against its own fresh output file and its own old
image, independently of every other partition. -/
def multiprocess_results (self : Dumper) (parts : List PartTask) :
    List (String × OutFile × Option DumpError) :=
  parts.map (fun p =>
    let r := dump_part self p.ops p.old
    (p.name, r.1, r.2.2))

/-- The `as_completed` loop of `multiprocess_partitions` combined with
`main`: an ordinary exception (`except Exception`) is reported for its
partition and the loop continues; a `SystemExit` is not an `Exception`,
escapes the loop and becomes the process exit status; otherwise `main`
returns normally and the process exits with status 0.  Returns the reported
partition names and the exit status. -/
def collect_results (results : List (String × OutFile × Option DumpError)) :
    List String × Int :=
  match results with
  | [] => ([], 0)
  | (name, _, err) :: rest =>
    match err with
    | none => collect_results rest
    | some DumpError.localError =>
      let r := collect_results rest
      (name :: r.1, r.2)
    | some (DumpError.systemExit c) => ([], c)

/-- `struct.unpack(">I", x)[0]`: big-endian value of a byte list. -/
def u32 (x : List Nat) : Nat :=
  x.foldl (fun a b => a * 256 + b) 0

/-- `struct.unpack(">Q", x)[0]`: big-endian value of a byte list. -/
def u64 (x : List Nat) : Nat :=
  x.foldl (fun a b => a * 256 + b) 0

/-- The values `parse_metadata` stores on the `Dumper`. -/
structure Metadata where
  manifest_size : Nat
  metadata_signature_size : Nat
  data_offset : Nat
  dam : DeltaArchiveManifest

/-- The magic tag `b"CrAU"`. -/
def crAU : List Nat := [0x43, 0x72, 0x41, 0x55]

/-- `Dumper.parse_metadata` over a payload source positioned anywhere,
parameterized by the external protobuf decoder
(`DeltaArchiveManifest.ParseFromString`), which yields `none` on bytes that do
not decode into the schema.  A `none` result models any parse failure
(a failed `assert` or a protobuf decode error). -/
def parse_metadata (decode : List Nat → Option DeltaArchiveManifest)
    (payloadfile : RFile) : Option (Metadata × RFile) :=
  let head_len := 4 + 8 + 8 + 4
  let (buffer, f) := payloadfile.read head_len
  if buffer.length ≠ head_len then none
  else if buffer.take 4 ≠ crAU then none
  else
    let file_format_version := u64 ((buffer.drop 4).take 8)
    if file_format_version ≠ 2 then none
    else
      let manifest_size := u64 ((buffer.drop 12).take 8)
      let metadata_signature_size :=
        if file_format_version > 1 then u32 ((buffer.drop 20).take 4) else 0
      let (manifest, f) := f.read manifest_size
      let (_sig, f) := f.read metadata_signature_size
      let data_offset := f.pos
      match decode manifest with
      | none => none
      | some dam =>
        some (⟨manifest_size, metadata_signature_size, data_offset, dam⟩, f)

/-- Modelled from the spec: the Scheduling Layer's bounded worker pool (the
source delegates scheduling to `concurrent.futures.ThreadPoolExecutor`, which
is external to the repository).  A state holds the partitions not yet
started, those currently materializing, and the finished ones with a success
flag. -/
structure PoolState where
  pending : List String
  running : List String
  done : List (String × Bool)

/-- Modelled from the spec: pool transitions.  A pending partition may start
only while fewer than `W` tasks run; a running partition may finish,
successfully or not, independently of every other task. -/
inductive PoolStep (W : Nat) : PoolState → PoolState → Prop where
  | start (p : String) (pend run : List String) (done : List (String × Bool)) :
      run.length < W →
      PoolStep W ⟨p :: pend, run, done⟩ ⟨pend, p :: run, done⟩
  | finish (p : String) (pend r1 r2 : List String)
      (done : List (String × Bool)) (ok : Bool) :
      PoolStep W ⟨pend, r1 ++ p :: r2, done⟩ ⟨pend, r1 ++ r2, (p, ok) :: done⟩

/-- The initial pool state of a run over the given partitions. -/
def poolInit (parts : List String) : PoolState :=
  ⟨parts, [], []⟩

/-- States the pool can reach from the start of a run. -/
def PoolReachable (W : Nat) (parts : List String) (s : PoolState) : Prop :=
  Relation.ReflTransGen (PoolStep W) (poolInit parts) s

/-- Strictly decreasing measure of the pool: twice the unstarted tasks plus
the running ones. -/
def poolMeasure (s : PoolState) : Nat :=
  2 * s.pending.length + s.running.length

/-- The concatenation, in order, of the bytes of the given extents' byte
ranges of the image `old`. -/
def gather_spec (bs : Nat) (old : List Nat) (exts : List Extent) : List Nat :=
  (exts.map (fun e =>
    (old.drop (e.start_block * bs)).take (e.num_blocks * bs))).flatten

/-- Scatter `patched` across the extents: the extent at running block offset
`off` receives `num_blocks*bs` bytes of `patched` starting at byte `off*bs`,
written at its own `start_block*bs` byte offset. -/
def scatter_spec (bs : Nat) (patched : List Nat) (exts : List Extent)
    (off : Nat) (g : Nat → Nat) : Nat → Nat :=
  match exts with
  | [] => g
  | e :: rest =>
    scatter_spec bs patched rest (off + e.num_blocks)
      (writeBytes g (e.start_block * bs)
        ((patched.drop (off * bs)).take (e.num_blocks * bs)))

/-- Total number of blocks of a list of extents. -/
def sumBlocks (exts : List Extent) : Nat :=
  (exts.map Extent.num_blocks).sum

/-- The payload a REPLACE-family operation writes: raw bytes for REPLACE, the
decompressed stream for REPLACE_XZ / REPLACE_BZ. -/
def replace_payload (self : Dumper) (t : OpType) (data : List Nat) :
    List Nat :=
  match t with
  | OpType.REPLACE_XZ => self.xz_decompress data
  | OpType.REPLACE_BZ => self.bz_decompress data
  | _ => data

/-- A byte position lies in some listed extent's byte range. -/
def inExtents (bs : Nat) (exts : List Extent) (i : Nat) : Prop :=
  ∃ e ∈ exts, e.start_block * bs ≤ i ∧ i < (e.start_block + e.num_blocks) * bs

/-- The claim's contiguity predicate: each extent's `start_block` equals the
running sum of the preceding extents' `num_blocks` starting from the FIRST
extent's `start_block`. -/
def contiguous_from_first (exts : List Extent) : Prop :=
  ∀ i < exts.length,
    (exts.getD i ⟨0, 0⟩).start_block =
      (exts.getD 0 ⟨0, 0⟩).start_block +
        ((exts.take i).map Extent.num_blocks).sum

instance (exts : List Extent) : Decidable (contiguous_from_first exts) := by
  unfold contiguous_from_first
  infer_instance

/-- The claim's SOURCE_COPY semantics: scatter the concatenated src-extent
bytes across the FULL dst extent list, each extent receiving its slice at its
own byte offset. -/
def source_copy_claim (bs : Nat) (old : List Nat) (op : InstallOperation)
    (g : Nat → Nat) : Nat → Nat :=
  scatter_spec bs (gather_spec bs old op.src_extents) op.dst_extents 0 g

/-- A concrete differential-mode dumper with block size 1, identity codecs
and concatenation as the patcher, used to evaluate the model. -/
def exDiffDumper : Dumper :=
  ⟨true, 1, id, id, fun o d => o ++ d⟩

/-- A concrete full-OTA (no `--diff`) dumper with block size 1. -/
def exNoDiffDumper : Dumper :=
  ⟨false, 1, id, id, fun o d => o ++ d⟩

/-- A concrete two-byte old image. -/
def exOld : RFile := ⟨0, [7, 8]⟩

/-- A SOURCE_COPY operation with a fragmented destination. -/
def exSourceCopyOp : OpWithData :=
  ⟨⟨OpType.SOURCE_COPY, 0, 0, [⟨0, 2⟩], [⟨0, 1⟩, ⟨42, 1⟩]⟩, []⟩

/-- A SOURCE_BSDIFF operation with a fragmented destination. -/
def exBsdiffOp : OpWithData :=
  ⟨⟨OpType.SOURCE_BSDIFF, 0, 0, [⟨0, 2⟩], [⟨0, 1⟩, ⟨42, 1⟩]⟩, [3]⟩

/-- A ZERO operation over one extent. -/
def exZeroOp : OpWithData :=
  ⟨⟨OpType.ZERO, 0, 0, [], [⟨1, 1⟩]⟩, [5]⟩

/-- A REPLACE operation writing one byte at block 0. -/
def exReplaceOp : OpWithData :=
  ⟨⟨OpType.REPLACE, 0, 1, [], [⟨0, 1⟩]⟩, [1]⟩

/-- A REPLACE operation with an empty `dst_extents` (its `dst_extents[0]`
raises an `IndexError`, a partition-local exception). -/
def exBadReplaceOp : OpWithData :=
  ⟨⟨OpType.REPLACE, 0, 0, [], []⟩, []⟩

/-- A SOURCE_COPY operation used as the second operation of a partition. -/
def exSourceCopyOp2 : OpWithData :=
  ⟨⟨OpType.SOURCE_COPY, 0, 0, [⟨0, 1⟩], [⟨1, 1⟩]⟩, []⟩

/-- A partition task whose only operation fails with a local error. -/
def exFailTask : PartTask := ⟨"a", [exBadReplaceOp], ⟨0, []⟩⟩

/-- A payload that is exactly a valid 24-byte header announcing
`manifest_size = 0` and `metadata_signature_size = 4`, with no further
bytes. -/
def exHeaderOnly : List Nat :=
  [0x43, 0x72, 0x41, 0x55, 0, 0, 0, 0, 0, 0, 0, 2,
   0, 0, 0, 0, 0, 0, 0, 0, 0, 0, 0, 4]

/-- The same header followed by the four announced signature bytes. -/
def exFullFile : List Nat := exHeaderOnly ++ [9, 9, 9, 9]

/-- A decoder accepting any manifest bytes. -/
def exDecode : List Nat → Option DeltaArchiveManifest :=
  fun _ => some ⟨4096, []⟩

/-- Manifest partition "a" with one operation at payload offset 0. -/
def exPartA : PartitionUpdate := ⟨"a", [⟨OpType.REPLACE, 0, 1, [], [⟨0, 1⟩]⟩]⟩

/-- Manifest partition "b" with one operation at payload offset 10. -/
def exPartB : PartitionUpdate := ⟨"b", [⟨OpType.REPLACE, 10, 1, [], [⟨0, 1⟩]⟩]⟩

lemma writeBytes_out (g : Nat → Nat) (off : Nat) (d : List Nat) (i : Nat)
    (h : i < off ∨ off + d.length ≤ i) : writeBytes g off d i = g i := by
  unfold writeBytes
  rw [if_neg]
  omega

lemma writeBytes_in (g : Nat → Nat) (off : Nat) (d : List Nat) (i : Nat)
    (h1 : off ≤ i) (h2 : i - off < d.length) :
    writeBytes g off d i = d.getD (i - off) 0 := by
  unfold writeBytes
  rw [if_pos ⟨h1, h2⟩]

lemma writeBytes_nil (g : Nat → Nat) (off : Nat) : writeBytes g off [] = g := by
  funext i
  unfold writeBytes
  rw [if_neg]
  simp

lemma writeBytes_append (g : Nat → Nat) (off : Nat) (a b : List Nat) :
    writeBytes (writeBytes g off a) (off + a.length) b =
      writeBytes g off (a ++ b) := by
  funext i
  unfold writeBytes
  simp only [List.length_append]
  by_cases h1 : off ≤ i
  · by_cases h2 : i - off < a.length
    · rw [if_neg (by omega), if_pos ⟨h1, h2⟩, if_pos ⟨h1, by omega⟩,
        List.getD_append _ _ _ _ h2]
    · by_cases h3 : i - off < a.length + b.length
      · rw [if_pos ⟨by omega, by omega⟩, if_pos ⟨h1, h3⟩,
          List.getD_append_right _ _ _ _ (by omega)]
        congr 1
        omega
      · rw [if_neg (by omega), if_neg (by omega), if_neg (by omega)]
  · rw [if_neg (by omega), if_neg (by omega), if_neg (by omega)]

lemma getD_replicate_zero (n k : Nat) :
    (List.replicate n (0 : Nat)).getD k 0 = 0 := by
  by_cases h : k < n
  · rw [List.getD_eq_getElem _ _ (by simpa using h)]
    simp
  · exact List.getD_eq_default _ _ (by simpa using Nat.le_of_not_lt h)

lemma verify_contiguous_loop_iff (exts : List Extent) (b : Nat) :
    verify_contiguous_loop exts b = true ↔
      ∀ i < exts.length,
        (exts.getD i ⟨0, 0⟩).start_block =
          b + ((exts.take i).map Extent.num_blocks).sum := by
  induction exts generalizing b with
  | nil => simp [verify_contiguous_loop]
  | cons e rest ih =>
    simp only [verify_contiguous_loop]
    by_cases he : e.start_block = b
    · rw [if_neg (by simpa using he), ih]
      constructor
      · intro h i hi
        cases i with
        | zero => simpa using he
        | succ j =>
          have hj := h j (by simpa using Nat.lt_of_succ_lt_succ hi)
          simpa [List.take_succ_cons, Nat.add_assoc] using hj
      · intro h j hj
        have hjj := h (j + 1) (by simpa using Nat.succ_lt_succ hj)
        simpa [List.take_succ_cons, Nat.add_assoc] using hjj
    · rw [if_pos (by simpa using he)]
      constructor
      · intro h
        cases h
      · intro h
        exfalso
        exact he (by simpa using h 0 (by simp))

/-- C8 (amended): `verify_contiguous` returns true iff each extent's
`start_block` equals the running sum of the preceding extents' `num_blocks`
starting from block 0; a sequence whose first extent starts at a non-zero
block is rejected. -/
theorem verify_contiguous_iff_zero_based (exts : List Extent) :
    verify_contiguous exts = true ↔
      ∀ i < exts.length,
        (exts.getD i ⟨0, 0⟩).start_block =
          ((exts.take i).map Extent.num_blocks).sum := by
  simpa [verify_contiguous] using verify_contiguous_loop_iff exts 0

/-- C8 counterexample: the sequence [(5,2),(7,1)] is back-to-back starting
from its (non-zero) first start block, so the claim calls it contiguous, but
`verify_contiguous` returns false because its running sum starts at block 0. -/
theorem verify_contiguous_claim_cex :
    contiguous_from_first [⟨5, 2⟩, ⟨7, 1⟩] ∧
      verify_contiguous [⟨5, 2⟩, ⟨7, 1⟩] = false :=
  ⟨by decide, by decide⟩

/-- C8 witness: the amended characterization evaluated on [(0,2),(2,1)]. -/
theorem verify_contiguous_iff_zero_based_witness :
    verify_contiguous [⟨0, 2⟩, ⟨2, 1⟩] = true :=
  (verify_contiguous_iff_zero_based [⟨0, 2⟩, ⟨2, 1⟩]).mpr (by decide)

lemma inExtents_cons (bs : Nat) (e : Extent) (rest : List Extent) (i : Nat) :
    inExtents bs (e :: rest) i ↔
      (e.start_block * bs ≤ i ∧ i < (e.start_block + e.num_blocks) * bs) ∨
        inExtents bs rest i := by
  unfold inExtents
  simp only [List.mem_cons, or_and_right, exists_or, exists_eq_left]

lemma zero_loop_out (bs : Nat) (exts : List Extent) (out : OutFile) (i : Nat)
    (h : ¬ inExtents bs exts i) :
    (zero_loop bs exts out).contents i = out.contents i := by
  induction exts generalizing out with
  | nil => rfl
  | cons e rest ih =>
    rw [inExtents_cons] at h
    push_neg at h
    obtain ⟨h1, h2⟩ := h
    simp only [zero_loop]
    rw [ih _ h2]
    show writeBytes out.contents (e.start_block * bs)
      (List.replicate (e.num_blocks * bs) 0) i = out.contents i
    apply writeBytes_out
    simp only [List.length_replicate]
    rw [Nat.add_mul] at h1
    set k1 := e.start_block * bs
    set k2 := e.num_blocks * bs
    omega

lemma zero_loop_in (bs : Nat) (exts : List Extent) (out : OutFile) (i : Nat)
    (h : inExtents bs exts i) :
    (zero_loop bs exts out).contents i = 0 := by
  induction exts generalizing out with
  | nil => exact absurd h (by simp [inExtents])
  | cons e rest ih =>
    rw [inExtents_cons] at h
    simp only [zero_loop]
    by_cases hr : inExtents bs rest i
    · exact ih _ hr
    · rcases h with h1 | h1
      · rw [zero_loop_out bs rest _ i hr]
        show writeBytes out.contents (e.start_block * bs)
          (List.replicate (e.num_blocks * bs) 0) i = 0
        rw [writeBytes_in, getD_replicate_zero]
        · exact h1.1
        · simp only [List.length_replicate]
          have h2 := h1.2
          rw [Nat.add_mul] at h2
          set k1 := e.start_block * bs
          set k2 := e.num_blocks * bs
          omega
      · exact absurd h1 hr

/-- C4: a ZERO operation succeeds, zeroes every byte in the union of its
`dst_extents` byte ranges, and leaves every byte outside that union
unchanged. -/
theorem zero_op_zeroes_extents (self : Dumper) (opd : OpWithData)
    (out : OutFile) (old : RFile)
    (htype : opd.operation.type = OpType.ZERO) :
    ∃ out',
      data_for_op self opd out old = Except.ok (opd.data, out', old) ∧
      (∀ i, inExtents self.block_size opd.operation.dst_extents i →
        out'.contents i = 0) ∧
      (∀ i, ¬ inExtents self.block_size opd.operation.dst_extents i →
        out'.contents i = out.contents i) := by
  refine ⟨zero_loop self.block_size opd.operation.dst_extents out, ?_, ?_, ?_⟩
  · simp [data_for_op, htype]
  · exact fun i h => zero_loop_in _ _ _ _ h
  · exact fun i h => zero_loop_out _ _ _ _ h

/-- C4 witness: the ZERO theorem applied to a concrete operation. -/
theorem zero_op_zeroes_extents_witness :
    ∃ out',
      data_for_op exDiffDumper exZeroOp emptyOut exOld =
        Except.ok (exZeroOp.data, out', exOld) ∧
      (∀ i, inExtents exDiffDumper.block_size exZeroOp.operation.dst_extents i →
        out'.contents i = 0) ∧
      (∀ i, ¬ inExtents exDiffDumper.block_size exZeroOp.operation.dst_extents i →
        out'.contents i = emptyOut.contents i) :=
  zero_op_zeroes_extents exDiffDumper exZeroOp emptyOut exOld rfl

/-- C10: every REPLACE / REPLACE_XZ / REPLACE_BZ operation writes exactly its
raw (REPLACE) or decompressed (REPLACE_XZ/_BZ) payload at byte offset
`dst_extents[0].start_block * block_size`: every payload byte lands there in
full, with no hypothesis relating the payload length to the extent list's
total byte length (a payload longer than `dst_extents[0]` is still written in
full past that extent's end), and every byte outside the written span is
untouched. -/
theorem replace_writes_full_payload (self : Dumper) (opd : OpWithData)
    (out : OutFile) (old : RFile)
    (htype : opd.operation.type = OpType.REPLACE ∨
      opd.operation.type = OpType.REPLACE_XZ ∨
      opd.operation.type = OpType.REPLACE_BZ)
    (e0 : Extent) (rest : List Extent)
    (hdst : opd.operation.dst_extents = e0 :: rest) :
    ∃ out',
      data_for_op self opd out old =
        Except.ok (replace_payload self opd.operation.type opd.data, out', old) ∧
      (∀ i, i < (replace_payload self opd.operation.type opd.data).length →
        out'.contents (e0.start_block * self.block_size + i) =
          (replace_payload self opd.operation.type opd.data).getD i 0) ∧
      (∀ j, j < e0.start_block * self.block_size ∨
          e0.start_block * self.block_size +
            (replace_payload self opd.operation.type opd.data).length ≤ j →
        out'.contents j = out.contents j) := by
  refine ⟨(out.seek (e0.start_block * self.block_size)).write
      (replace_payload self opd.operation.type opd.data), ?_, ?_, ?_⟩
  · rcases htype with h | h | h <;>
      simp [data_for_op, h, hdst, replace_payload]
  · intro i hi
    show writeBytes out.contents (e0.start_block * self.block_size)
      (replace_payload self opd.operation.type opd.data)
      (e0.start_block * self.block_size + i) = _
    rw [writeBytes_in _ _ _ _ (Nat.le_add_right _ _) (by omega),
      Nat.add_sub_cancel_left]
  · intro j hj
    exact writeBytes_out _ _ _ _ hj

/-- C10 witness: the REPLACE theorem applied to a concrete operation. -/
theorem replace_writes_full_payload_witness :
    ∃ out',
      data_for_op exNoDiffDumper exReplaceOp emptyOut exOld =
        Except.ok
          (replace_payload exNoDiffDumper exReplaceOp.operation.type
            exReplaceOp.data, out', exOld) ∧
      (∀ i,
        i < (replace_payload exNoDiffDumper exReplaceOp.operation.type
          exReplaceOp.data).length →
        out'.contents (Extent.start_block ⟨0, 1⟩ * exNoDiffDumper.block_size + i) =
          (replace_payload exNoDiffDumper exReplaceOp.operation.type
            exReplaceOp.data).getD i 0) ∧
      (∀ j, j < Extent.start_block ⟨0, 1⟩ * exNoDiffDumper.block_size ∨
          Extent.start_block ⟨0, 1⟩ * exNoDiffDumper.block_size +
            (replace_payload exNoDiffDumper exReplaceOp.operation.type
              exReplaceOp.data).length ≤ j →
        out'.contents j = emptyOut.contents j) :=
  replace_writes_full_payload exNoDiffDumper exReplaceOp emptyOut exOld
    (Or.inl rfl) ⟨0, 1⟩ [] rfl

lemma source_copy_loop_contents (bs : Nat) (exts : List Extent) (old : RFile)
    (out : OutFile) (data : List Nat) :
    (source_copy_loop bs exts old out data).2.1.contents =
      writeBytes out.contents out.pos (gather_spec bs old.contents exts) := by
  induction exts generalizing old out data with
  | nil => simp [source_copy_loop, gather_spec, writeBytes_nil]
  | cons e rest ih =>
    simp only [source_copy_loop, RFile.seek, RFile.read, OutFile.write]
    rw [ih]
    show writeBytes (writeBytes out.contents out.pos _) (out.pos + _) _ = _
    rw [writeBytes_append]
    simp [gather_spec]

/-- C2 (amended): in differential mode, SOURCE_COPY writes the concatenation,
in `src_extents` order, of the source image's bytes at each src extent's byte
range, contiguously starting at `dst_extents[0].start_block * block_size`
(it uses `dst_extents[0]` alone and does not iterate the dst extent list). -/
theorem source_copy_writes_concat_at_dst0 (self : Dumper) (opd : OpWithData)
    (out : OutFile) (old : RFile)
    (hdiff : self.diff = true)
    (htype : opd.operation.type = OpType.SOURCE_COPY)
    (e0 : Extent) (rest : List Extent)
    (hdst : opd.operation.dst_extents = e0 :: rest) :
    ∃ d' p' old',
      data_for_op self opd out old = Except.ok (d', ⟨p',
        writeBytes out.contents (e0.start_block * self.block_size)
          (gather_spec self.block_size old.contents
            opd.operation.src_extents)⟩, old') := by
  have hc := source_copy_loop_contents self.block_size opd.operation.src_extents
    old (out.seek (e0.start_block * self.block_size)) opd.data
  simp only [OutFile.seek] at hc
  refine ⟨(source_copy_loop self.block_size opd.operation.src_extents old
      ⟨e0.start_block * self.block_size, out.contents⟩ opd.data).1,
    (source_copy_loop self.block_size opd.operation.src_extents old
      ⟨e0.start_block * self.block_size, out.contents⟩ opd.data).2.1.pos,
    (source_copy_loop self.block_size opd.operation.src_extents old
      ⟨e0.start_block * self.block_size, out.contents⟩ opd.data).2.2, ?_⟩
  simp only [data_for_op, htype, hdiff, hdst, if_true, OutFile.seek]
  rw [← hc]

/-- C2 counterexample: for SOURCE_COPY over the two-byte old image [7,8] with
`src_extents = [(0,2)]`, `dst_extents = [(0,1),(42,1)]` and block size 1, the
claim requires byte 8 at destination offset 42 (the second dst extent's own
offset), but the executor leaves offset 42 untouched at 0 because it writes
both bytes contiguously at `dst_extents[0]`. -/
theorem source_copy_claim_cex :
    (match data_for_op exDiffDumper exSourceCopyOp emptyOut exOld with
      | Except.ok (_, o, _) => o.contents 42
      | Except.error _ => 99) = 0 ∧
    source_copy_claim exDiffDumper.block_size exOld.contents
      exSourceCopyOp.operation emptyOut.contents 42 = 8 ∧ (0 : Nat) ≠ 8 :=
  ⟨by decide, by decide, by decide⟩

/-- C2 witness: the amended SOURCE_COPY theorem at a concrete operation. -/
theorem source_copy_writes_concat_at_dst0_witness :
    ∃ d' p' old',
      data_for_op exDiffDumper exSourceCopyOp emptyOut exOld =
        Except.ok (d', ⟨p',
          writeBytes emptyOut.contents
            (Extent.start_block ⟨0, 1⟩ * exDiffDumper.block_size)
            (gather_spec exDiffDumper.block_size exOld.contents
              exSourceCopyOp.operation.src_extents)⟩, old') :=
  source_copy_writes_concat_at_dst0 exDiffDumper exSourceCopyOp emptyOut exOld
    rfl rfl ⟨0, 1⟩ [⟨42, 1⟩] rfl

lemma data_for_op_source_copy_no_diff (self : Dumper) (opd : OpWithData)
    (out : OutFile) (old : RFile) (hdiff : self.diff = false)
    (htype : opd.operation.type = OpType.SOURCE_COPY) :
    data_for_op self opd out old = Except.error (DumpError.systemExit (-2)) := by
  simp [data_for_op, htype, hdiff]

lemma data_for_op_source_bsdiff_no_diff (self : Dumper) (opd : OpWithData)
    (out : OutFile) (old : RFile) (hdiff : self.diff = false)
    (htype : opd.operation.type = OpType.SOURCE_BSDIFF) :
    data_for_op self opd out old = Except.error (DumpError.systemExit (-3)) := by
  simp [data_for_op, htype, hdiff]

lemma dump_part_loop_append (self : Dumper) (xs ys : List OpWithData)
    (out : OutFile) (old : RFile)
    (h : (dump_part_loop self xs out old).2.2 = none) :
    dump_part_loop self (xs ++ ys) out old =
      dump_part_loop self ys (dump_part_loop self xs out old).1
        (dump_part_loop self xs out old).2.1 := by
  induction xs generalizing out old with
  | nil => rfl
  | cons x xs ih =>
    cases hx : data_for_op self x out old with
    | error e =>
      simp only [dump_part_loop, hx] at h
      cases h
    | ok r =>
      obtain ⟨d, o2, old2⟩ := r
      simp only [dump_part_loop, hx, List.cons_append] at h ⊢
      exact ih o2 old2 h

/-- C5 (amended): a SOURCE_COPY / SOURCE_BSDIFF operation reached while
differential mode is disabled fails with a distinct termination status
(`sys.exit(-2)` resp. `sys.exit(-3)`), but the partition's output file has
already been created (truncated) and retains, untouched, every write made by
the preceding operations of that partition. -/
theorem mode_error_aborts_partition (self : Dumper) (ops : List OpWithData)
    (opd : OpWithData) (old : RFile)
    (hdiff : self.diff = false)
    (htype : opd.operation.type = OpType.SOURCE_COPY ∨
      opd.operation.type = OpType.SOURCE_BSDIFF)
    (hok : (dump_part self ops old).2.2 = none) :
    dump_part self (ops ++ [opd]) old =
      ((dump_part self ops old).1, (dump_part self ops old).2.1,
        some (DumpError.systemExit
          (if opd.operation.type = OpType.SOURCE_COPY then -2 else -3))) := by
  unfold dump_part at hok ⊢
  rw [dump_part_loop_append self ops [opd] emptyOut old hok]
  rcases htype with h | h
  · rw [if_pos h]
    simp only [dump_part_loop, data_for_op_source_copy_no_diff self opd _ _ hdiff h]
  · rw [if_neg (by simp [h])]
    simp only [dump_part_loop, data_for_op_source_bsdiff_no_diff self opd _ _ hdiff h]

/-- C5 counterexample: with differential mode disabled, a partition whose
operations are a REPLACE followed by a SOURCE_COPY terminates with
`sys.exit(-2)`, yet its output file exists and holds the REPLACE's byte — a
partial output file, which the claim says must not be produced. -/
theorem mode_error_partial_output_cex :
    (dump_part exNoDiffDumper [exReplaceOp, exSourceCopyOp2] ⟨0, []⟩).2.2 =
      some (DumpError.systemExit (-2)) ∧
    (dump_part exNoDiffDumper [exReplaceOp, exSourceCopyOp2] ⟨0, []⟩).1.contents 0
      = 1 ∧
    emptyOut.contents 0 = 0 :=
  ⟨by decide, by decide, by decide⟩

/-- C5 witness: the amended mode-error theorem at a concrete operation. -/
theorem mode_error_aborts_partition_witness :
    dump_part exNoDiffDumper ([] ++ [exSourceCopyOp2]) ⟨0, []⟩ =
      ((dump_part exNoDiffDumper [] ⟨0, []⟩).1,
        (dump_part exNoDiffDumper [] ⟨0, []⟩).2.1,
        some (DumpError.systemExit
          (if exSourceCopyOp2.operation.type = OpType.SOURCE_COPY
            then -2 else -3))) :=
  mode_error_aborts_partition exNoDiffDumper [] exSourceCopyOp2 ⟨0, []⟩ rfl
    (Or.inl rfl) rfl

lemma collect_results_no_exit (rs : List (String × OutFile × Option DumpError))
    (h : ∀ r ∈ rs, r.2.2 = none ∨ r.2.2 = some DumpError.localError) :
    collect_results rs =
      (rs.filterMap (fun r =>
        if r.2.2 = some DumpError.localError then some r.1 else none), 0) := by
  induction rs with
  | nil => rfl
  | cons r rest ih =>
    obtain ⟨name, o, err⟩ := r
    have hr := h _ (List.mem_cons_self _ _)
    have hrest : ∀ x ∈ rest, x.2.2 = none ∨ x.2.2 = some DumpError.localError :=
      fun x hx => h x (List.mem_cons_of_mem _ hx)
    cases err with
    | none =>
      simp only [collect_results, ih hrest, List.filterMap_cons]
      simp
    | some e =>
      cases e with
      | systemExit c => simp at hr
      | localError =>
        simp only [collect_results, ih hrest, List.filterMap_cons]
        simp

/-- C6 (amended): in a run whose partition failures are all partition-local
(no `SystemExit`), every failing partition is reported by name, every
partition still gets its own independent `dump_part` result, and the process
exit status is 0 — it does NOT reflect the failures. -/
theorem local_failures_reported_exit_zero (self : Dumper)
    (parts : List PartTask)
    (h : ∀ r ∈ multiprocess_results self parts,
      r.2.2 = none ∨ r.2.2 = some DumpError.localError) :
    (collect_results (multiprocess_results self parts)).2 = 0 ∧
    (collect_results (multiprocess_results self parts)).1 =
      (multiprocess_results self parts).filterMap (fun r =>
        if r.2.2 = some DumpError.localError then some r.1 else none) ∧
    (multiprocess_results self parts).map (fun r => r.1) =
      parts.map PartTask.name := by
  rw [collect_results_no_exit _ h]
  refine ⟨rfl, rfl, ?_⟩
  simp [multiprocess_results]

/-- C6 counterexample: a run with one partition that fails with a
partition-local error reports the failure, yet the run's exit status is 0,
not the non-zero status the claim requires. -/
theorem failed_partition_exit_status_cex :
    (multiprocess_results exNoDiffDumper [exFailTask]).map (fun r => r.2.2) =
      [some DumpError.localError] ∧
    (collect_results (multiprocess_results exNoDiffDumper [exFailTask])).1 =
      ["a"] ∧
    (collect_results (multiprocess_results exNoDiffDumper [exFailTask])).2 = 0 :=
  ⟨by decide, by decide, by decide⟩

/-- C6 witness: the amended theorem on a concrete one-partition run. -/
theorem local_failures_reported_exit_zero_witness :
    (collect_results (multiprocess_results exNoDiffDumper [exFailTask])).2 = 0 ∧
    (collect_results (multiprocess_results exNoDiffDumper [exFailTask])).1 =
      (multiprocess_results exNoDiffDumper [exFailTask]).filterMap (fun r =>
        if r.2.2 = some DumpError.localError then some r.1 else none) ∧
    (multiprocess_results exNoDiffDumper [exFailTask]).map (fun r => r.1) =
      [exFailTask].map PartTask.name :=
  local_failures_reported_exit_zero exNoDiffDumper [exFailTask] (by decide)
lemma take24_len {bytes : List Nat} (h24 : 24 ≤ bytes.length) :
    (bytes.take 24).length = 24 := by
  simp only [List.length_take]
  omega

/-- C3 (amended): decoding fails exactly when fewer than 24 header bytes are
available, the magic differs from "CrAU", the 8-byte big-endian version
differs from 2, or the manifest bytes actually read do not decode; on success
the parser consumes the header, then up to `manifest_size` manifest bytes and
up to `metadata_signature_size` signature bytes (clamped at end of input),
leaving the cursor at `min (24 + manifest_size + metadata_signature_size)
(file length)` — the recorded data-region base offset. -/
theorem parse_metadata_characterization
    (decode : List Nat → Option DeltaArchiveManifest) (bytes : List Nat) :
    ((parse_metadata decode ⟨0, bytes⟩).isSome ↔
      (24 ≤ bytes.length ∧ bytes.take 4 = crAU ∧
        u64 ((bytes.drop 4).take 8) = 2 ∧
        (decode ((bytes.drop 24).take (u64 ((bytes.drop 12).take 8)))).isSome)) ∧
    (∀ md f, parse_metadata decode ⟨0, bytes⟩ = some (md, f) →
      md.manifest_size = u64 ((bytes.drop 12).take 8) ∧
      md.metadata_signature_size = u32 ((bytes.drop 20).take 4) ∧
      decode ((bytes.drop 24).take md.manifest_size) = some md.dam ∧
      f.pos = min (24 + md.manifest_size + md.metadata_signature_size)
        bytes.length ∧
      md.data_offset = f.pos) := by
  by_cases h24 : 24 ≤ bytes.length
  · have hb4 : (bytes.take 24).take 4 = bytes.take 4 := by
      rw [List.take_take]
      norm_num
    have hb48 : ((bytes.take 24).drop 4).take 8 = (bytes.drop 4).take 8 := by
      rw [List.drop_take, List.take_take]
      norm_num
    have hb128 : ((bytes.take 24).drop 12).take 8 = (bytes.drop 12).take 8 := by
      rw [List.drop_take, List.take_take]
      norm_num
    have hb204 : ((bytes.take 24).drop 20).take 4 = (bytes.drop 20).take 4 := by
      rw [List.drop_take, List.take_take]
      norm_num
    by_cases hm : bytes.take 4 = crAU
    · by_cases hv : u64 ((bytes.drop 4).take 8) = 2
      · have hmain : parse_metadata decode ⟨0, bytes⟩ =
            match decode ((bytes.drop 24).take (u64 ((bytes.drop 12).take 8))) with
            | none => none
            | some dam =>
              some (⟨u64 ((bytes.drop 12).take 8), u32 ((bytes.drop 20).take 4),
                24 + ((bytes.drop 24).take (u64 ((bytes.drop 12).take 8))).length +
                  ((bytes.drop (24 + ((bytes.drop 24).take
                    (u64 ((bytes.drop 12).take 8))).length)).take
                      (u32 ((bytes.drop 20).take 4))).length, dam⟩,
                ⟨24 + ((bytes.drop 24).take (u64 ((bytes.drop 12).take 8))).length +
                  ((bytes.drop (24 + ((bytes.drop 24).take
                    (u64 ((bytes.drop 12).take 8))).length)).take
                      (u32 ((bytes.drop 20).take 4))).length, bytes⟩) := by
          unfold parse_metadata
          simp only [RFile.read, List.drop_zero, take24_len h24, hb4, hb48, hb128,
            hb204, hv]
          rw [if_neg (by omega), if_neg (by simp [hm]), if_neg (by omega)]
          norm_num
        constructor
        · rw [hmain]
          cases hdec : decode ((bytes.drop 24).take (u64 ((bytes.drop 12).take 8))) with
          | none => simp [h24, hm, hv, hdec]
          | some dam => simp [h24, hm, hv, hdec]
        · intro md f heq
          rw [hmain] at heq
          cases hdec : decode ((bytes.drop 24).take (u64 ((bytes.drop 12).take 8))) with
          | none =>
            rw [hdec] at heq
            cases heq
          | some dam =>
            rw [hdec] at heq
            simp only [Option.some.injEq, Prod.mk.injEq] at heq
            obtain ⟨h1, h2⟩ := heq
            subst h1
            subst h2
            refine ⟨rfl, rfl, hdec, ?_, rfl⟩
            simp only [List.length_take, List.length_drop]
            omega
      · have hA : parse_metadata decode ⟨0, bytes⟩ = none := by
          unfold parse_metadata
          simp only [RFile.read, List.drop_zero, take24_len h24, hb4, hb48]
          rw [if_neg (by omega), if_neg (by simp [hm]), if_pos hv]
        rw [hA]
        constructor
        · simp [hv]
        · intro md f heq
          cases heq
    · have hA : parse_metadata decode ⟨0, bytes⟩ = none := by
        unfold parse_metadata
        simp only [RFile.read, List.drop_zero, take24_len h24, hb4]
        rw [if_neg (by omega), if_pos hm]
      rw [hA]
      constructor
      · simp [hm]
      · intro md f heq
        cases heq
  · have hA : parse_metadata decode ⟨0, bytes⟩ = none := by
      unfold parse_metadata
      simp only [RFile.read, List.drop_zero]
      rw [if_pos (by simp only [List.length_take]; omega)]
    rw [hA]
    constructor
    · simp [h24]
    · intro md f heq
      cases heq

/-- C3 counterexample: a payload that is exactly a valid 24-byte header
announcing `manifest_size = 0` and `metadata_signature_size = 4` passes every
check and decodes successfully, but the cursor is left at byte 24, not at
24 + manifest_size + metadata_signature_size = 28: the signature read is
clamped at end of input, so decoding does not consume the announced
signature bytes. -/
theorem parse_metadata_cursor_cex :
    parse_metadata exDecode ⟨0, exHeaderOnly⟩ =
      some (⟨0, 4, 24, ⟨4096, []⟩⟩, ⟨24, exHeaderOnly⟩) ∧
    (24 : Nat) ≠ 24 + 0 + 4 :=
  ⟨rfl, by decide⟩

/-- C3 witness: the characterization applied to a complete concrete payload
containing all announced signature bytes. -/
theorem parse_metadata_characterization_witness :
    (parse_metadata exDecode ⟨0, exFullFile⟩).isSome :=
  (parse_metadata_characterization exDecode exFullFile).1.mpr (by decide)
lemma byteBuf_write_at_end (b : ByteBuf) (d : List Nat)
    (h : b.pos = b.contents.length) :
    b.write d = ⟨b.contents.length + d.length, b.contents ++ d⟩ := by
  unfold ByteBuf.write
  rw [h, Nat.sub_self]
  simp [List.drop_eq_nil_of_le]

lemma byteBuf_write_zero_pos (c d : List Nat) :
    (ByteBuf.mk 0 c).write d = ⟨d.length, d ++ c.drop d.length⟩ := by
  simp [ByteBuf.write]

lemma take_drop_append_left (a b : List Nat) (k m : Nat) (h : k + m ≤ a.length) :
    ((a ++ b).drop k).take m = (a.drop k).take m := by
  rw [List.drop_append_eq_append_drop, List.take_append_eq_append_take]
  have h2 : m - (List.drop k a).length = 0 := by
    simp only [List.length_drop]
    omega
  rw [h2]
  simp

lemma bsdiff_gather_contents (bs : Nat) (exts : List Extent) (old : RFile)
    (tmp : ByteBuf) (h : tmp.pos = tmp.contents.length) :
    (bsdiff_gather bs exts old tmp).1.contents =
      tmp.contents ++ gather_spec bs old.contents exts ∧
    (bsdiff_gather bs exts old tmp).1.pos =
      (bsdiff_gather bs exts old tmp).1.contents.length := by
  induction exts generalizing old tmp with
  | nil =>
    constructor
    · simp [bsdiff_gather, gather_spec]
    · simpa [bsdiff_gather] using h
  | cons e rest ih =>
    simp only [bsdiff_gather, RFile.seek, RFile.read]
    rw [byteBuf_write_at_end _ _ h]
    constructor
    · rw [(ih _ _ (by simp)).1]
      simp [gather_spec, List.append_assoc]
    · exact (ih _ _ (by simp)).2

lemma bsdiff_scatter_contents (bs : Nat) (exts : List Extent) (tmp : ByteBuf)
    (out : OutFile) (n : Nat) (data patch tail : List Nat)
    (hc : tmp.contents = patch ++ tail)
    (hlen : (n + sumBlocks exts) * bs ≤ patch.length) :
    (bsdiff_scatter bs exts tmp out n data).2.1.contents =
      scatter_spec bs patch exts n out.contents := by
  induction exts generalizing tmp out n data with
  | nil => simp [bsdiff_scatter, scatter_spec]
  | cons e rest ih =>
    have hsum : sumBlocks (e :: rest) = e.num_blocks + sumBlocks rest := by
      simp [sumBlocks]
    rw [hsum] at hlen
    have hlen' : ((n + e.num_blocks) + sumBlocks rest) * bs ≤ patch.length := by
      rw [show (n + e.num_blocks) + sumBlocks rest
        = n + (e.num_blocks + sumBlocks rest) from by omega]
      exact hlen
    have hb : n * bs + e.num_blocks * bs ≤ patch.length := by
      refine le_trans ?_ hlen'
      rw [← Nat.add_mul]
      exact Nat.mul_le_mul_right _ (by omega)
    simp only [bsdiff_scatter, ByteBuf.seek, ByteBuf.read, OutFile.seek,
      OutFile.write, scatter_spec]
    rw [hc, take_drop_append_left _ _ _ _ hb]
    exact ih _ _ _ _ rfl hlen'

/-- C1: in differential mode, SOURCE_BSDIFF concatenates the source image's
bytes over `src_extents` in order, applies the external binary patcher with
the raw payload as the diff and that concatenation as the base, and scatters
the patched output across `dst_extents` in order: the extent at running block
offset `off` receives `num_blocks*block_size` bytes of the patched output
starting at byte `off*block_size`, written at its own
`start_block*block_size` offset (provided the patched output covers the
destination extents, as a well-formed bsdiff output does). -/
theorem source_bsdiff_gathers_patches_scatters (self : Dumper)
    (opd : OpWithData) (out : OutFile) (old : RFile)
    (hdiff : self.diff = true)
    (htype : opd.operation.type = OpType.SOURCE_BSDIFF)
    (e0 : Extent) (rest : List Extent)
    (hdst : opd.operation.dst_extents = e0 :: rest)
    (hlen : sumBlocks opd.operation.dst_extents * self.block_size ≤
      (self.bsdiff_patch
        (gather_spec self.block_size old.contents opd.operation.src_extents)
        opd.data).length) :
    ∃ d' p' old',
      data_for_op self opd out old = Except.ok (d', ⟨p',
        scatter_spec self.block_size
          (self.bsdiff_patch
            (gather_spec self.block_size old.contents opd.operation.src_extents)
            opd.data)
          opd.operation.dst_extents 0 out.contents⟩, old') := by
  obtain ⟨hg1, hg2⟩ := bsdiff_gather_contents self.block_size
    opd.operation.src_extents old ⟨0, []⟩ rfl
  simp only [List.nil_append] at hg1
  rw [hdst] at hlen
  rcases hG : bsdiff_gather self.block_size opd.operation.src_extents old ⟨0, []⟩
    with ⟨gtmp, gold⟩
  rw [hG] at hg1 hg2
  dsimp only at hg1 hg2
  have hs := bsdiff_scatter_contents self.block_size (e0 :: rest)
    ⟨0, self.bsdiff_patch gtmp.contents opd.data ++
      gtmp.contents.drop (self.bsdiff_patch gtmp.contents opd.data).length⟩
    ⟨e0.start_block * self.block_size, out.contents⟩ 0 opd.data
    (self.bsdiff_patch gtmp.contents opd.data)
    (gtmp.contents.drop (self.bsdiff_patch gtmp.contents opd.data).length)
    rfl (by rw [hg1]; simpa using hlen)
  dsimp only at hs
  rw [hg1] at hs
  simp only [data_for_op, htype, hdiff, hdst, hG, OutFile.seek, ByteBuf.seek,
    ByteBuf.readAll, List.drop_zero, byteBuf_write_zero_pos, hg1, Nat.zero_add, if_true,
    ← hs]
  exact ⟨_, _, _, rfl⟩

/-- C1 witness: the SOURCE_BSDIFF theorem at a concrete operation with a
fragmented destination. -/
theorem source_bsdiff_gathers_patches_scatters_witness :
    ∃ d' p' old',
      data_for_op exDiffDumper exBsdiffOp emptyOut exOld = Except.ok (d', ⟨p',
        scatter_spec exDiffDumper.block_size
          (exDiffDumper.bsdiff_patch
            (gather_spec exDiffDumper.block_size exOld.contents
              exBsdiffOp.operation.src_extents) exBsdiffOp.data)
          exBsdiffOp.operation.dst_extents 0 emptyOut.contents⟩, old') :=
  source_bsdiff_gathers_patches_scatters exDiffDumper exBsdiffOp emptyOut exOld
    rfl rfl ⟨0, 1⟩ [⟨42, 1⟩] rfl (by decide)

lemma foldl_append_eq {α β : Type} (f : α → List β) (l : List α) (acc : List β) :
    l.foldl (fun a x => a ++ f x) acc = acc ++ (l.map f).flatten := by
  induction l generalizing acc with
  | nil => simp
  | cons x xs ih => simp [ih, List.append_assoc]

lemma prefetch_trace_eq (d : Nat) (parts : List PartitionUpdate) :
    prefetch_trace d parts = prefetch_events d parts := by
  unfold prefetch_trace prefetch_events
  simp only [foldl_append_eq, List.nil_append]

lemma prefetch_events_source_access (d : Nat) (parts : List PartitionUpdate) :
    ∀ e ∈ prefetch_events d parts, isSourceAccess e = true := by
  intro e he
  unfold prefetch_events at he
  simp only [List.mem_flatten, List.mem_map] at he
  obtain ⟨l, ⟨p, hp, rfl⟩, hel⟩ := he
  simp only [List.mem_flatten, List.mem_map] at hel
  obtain ⟨l2, ⟨op, hop, rfl⟩, hel2⟩ := hel
  simp only [List.mem_cons, List.not_mem_nil, or_false] at hel2
  rcases hel2 with h | h <;> (rw [h]; rfl)

lemma prefetch_close_source_access (d : Nat) (parts : List PartitionUpdate) :
    ∀ e ∈ prefetch_events d parts ++ [Event.payloadClose],
      isSourceAccess e = true := by
  intro e he
  rcases List.mem_append.mp he with h | h
  · exact prefetch_events_source_access d parts e h
  · simp only [List.mem_singleton] at h
    rw [h]
    rfl

lemma source_access_precedes (T A B : List Event) (hT : T = A ++ B)
    (hA : ∀ e ∈ A, isSourceAccess e = true)
    (hB : ∀ e ∈ B, isSourceAccess e = false)
    (i j : Nat) (hi : i < T.length) (hj : j < T.length)
    (h1 : isSourceAccess (T.get ⟨i, hi⟩) = true)
    (h2 : isSourceAccess (T.get ⟨j, hj⟩) = false) : i < j := by
  subst hT
  have hiA : i < A.length := by
    by_contra hc
    push_neg at hc
    rw [show (A ++ B).get ⟨i, hi⟩ =
        B.get ⟨i - A.length, by simp at hi ⊢; omega⟩ from by
      simp [List.getElem_append_right, hc]] at h1
    rw [hB _ (List.get_mem _ _ _)] at h1
    cases h1
  have hjB : ¬ j < A.length := by
    intro hc
    rw [show (A ++ B).get ⟨j, hj⟩ = A.get ⟨j, hc⟩ from by
      simp [List.getElem_append_left, hc]] at h2
    rw [hA _ (List.get_mem _ _ _)] at h2
    cases h2
  omega

/-- C7 (amended): `run` reads every selected partition's operation payloads
(a seek to `data_offset + op.data_offset` then a read of `data_length`, per
operation, in operation order) in the order of the SELECTED partition list —
manifest order exactly when no `--partitions` selection reorders it — then
closes the payload source, and only then do partition tasks run: in the run's
trace every payload-source access strictly precedes every partition task. -/
theorem run_prefetches_all_before_tasks (d : Nat)
    (dam_parts : List PartitionUpdate) (images : String) :
    (run_trace d dam_parts images =
      prefetch_events d (select_partitions dam_parts images) ++
        [Event.payloadClose] ++
        (select_partitions dam_parts images).map
          (fun p => Event.partTask p.partition_name)) ∧
    (∀ i j (hi : i < (run_trace d dam_parts images).length)
        (hj : j < (run_trace d dam_parts images).length),
      isSourceAccess ((run_trace d dam_parts images).get ⟨i, hi⟩) = true →
      isSourceAccess ((run_trace d dam_parts images).get ⟨j, hj⟩) = false →
      i < j) := by
  have hrt : run_trace d dam_parts images =
      (prefetch_events d (select_partitions dam_parts images) ++
        [Event.payloadClose]) ++
        (select_partitions dam_parts images).map
          (fun p => Event.partTask p.partition_name) := by
    unfold run_trace
    simp only [prefetch_trace_eq]
  refine ⟨hrt, ?_⟩
  intro i j hi hj h1 h2
  refine source_access_precedes _ _ _ hrt
    (prefetch_close_source_access d _) ?_ i j hi hj h1 h2
  intro e he
  simp only [List.mem_map] at he
  obtain ⟨p, hp, rfl⟩ := he
  rfl

/-- C7 counterexample: with manifest partition order [a, b] but selection
"b,a", the prefetch reads b's operation payload before a's — the reads follow
selection order, not manifest order as the claim states. -/
theorem run_trace_manifest_order_cex :
    run_trace 0 [exPartA, exPartB] "b,a" ≠
      prefetch_events_manifest_order 0 [exPartA, exPartB] "b,a" ++
        [Event.payloadClose] ++
        (select_partitions [exPartA, exPartB] "b,a").map
          (fun p => Event.partTask p.partition_name) := by
  decide

/-- C7 witness: the amended theorem's trace decomposition at a concrete
manifest with no selection. -/
theorem run_prefetches_all_before_tasks_witness :
    run_trace 0 [exPartA] "" =
      prefetch_events 0 (select_partitions [exPartA] "") ++
        [Event.payloadClose] ++
        (select_partitions [exPartA] "").map
          (fun p => Event.partTask p.partition_name) :=
  (run_prefetches_all_before_tasks 0 [exPartA] "").1

lemma pool_step_measure (W : Nat) (s s' : PoolState) (h : PoolStep W s s') :
    poolMeasure s' < poolMeasure s := by
  cases h with
  | start p pend run done hlt =>
    simp only [poolMeasure, List.length_cons]
    omega
  | finish p pend r1 r2 done ok =>
    simp only [poolMeasure, List.length_append, List.length_cons]
    omega

lemma pool_running_le (W : Nat) (parts : List String) (s : PoolState)
    (h : PoolReachable W parts s) : s.running.length ≤ W := by
  induction h with
  | refl => simp [poolInit]
  | tail hsteps hstep ih =>
    cases hstep with
    | start p pend run done hlt => simpa using hlt
    | finish p pend r1 r2 done ok =>
      simp only [List.length_append, List.length_cons] at ih ⊢
      omega

lemma pool_invariant (W : Nat) (parts : List String) (s : PoolState)
    (h : PoolReachable W parts s) :
    (s.pending ++ s.running ++ s.done.map Prod.fst).Perm parts := by
  induction h with
  | refl => simp [poolInit]
  | tail hsteps hstep ih =>
    refine List.Perm.trans ?_ ih
    cases hstep with
    | start p pend run done hlt =>
      refine List.perm_iff_count.mpr ?_
      intro a
      by_cases hap : a = p
      all_goals simp [hap, List.count_append, List.count_cons]
      all_goals omega
    | finish p pend r1 r2 done ok =>
      refine List.perm_iff_count.mpr ?_
      intro a
      by_cases hap : a = p
      all_goals simp [hap, List.count_append, List.count_cons]
      all_goals omega

lemma pool_stuck_done (W : Nat) (s : PoolState)
    (hW : 0 < W) (hstuck : ∀ s', ¬ PoolStep W s s') :
    s.pending = [] ∧ s.running = [] := by
  obtain ⟨pend, run, done⟩ := s
  cases run with
  | cons r rs =>
    exact absurd (PoolStep.finish r pend [] rs done true) (hstuck _)
  | nil =>
    cases pend with
    | nil => exact ⟨rfl, rfl⟩
    | cons p ps =>
      exact absurd (PoolStep.start p ps [] done (by simpa using hW)) (hstuck _)

/-- C9: in the bounded-pool model of the scheduling layer, with a positive
worker limit W, (1) every reachable state runs at most W partition tasks at
once, (2) every step strictly decreases a natural measure, so every run
terminates, and (3) any reachable state from which no step is possible has
started and finished every partition — the finished multiset is exactly the
submitted partitions, whatever mix of successes and failures the finish steps
chose, so one partition's failure prevents no other from completing. -/
theorem pool_bounded_and_completes (W : Nat) (parts : List String)
    (hW : 0 < W) :
    (∀ s, PoolReachable W parts s → s.running.length ≤ W) ∧
    (∀ s s', PoolStep W s s' → poolMeasure s' < poolMeasure s) ∧
    (∀ s, PoolReachable W parts s → (∀ s', ¬ PoolStep W s s') →
      s.pending = [] ∧ s.running = [] ∧ (s.done.map Prod.fst).Perm parts) := by
  refine ⟨fun s h => pool_running_le W parts s h,
    fun s s' h => pool_step_measure W s s' h, fun s h hstuck => ?_⟩
  obtain ⟨h1, h2⟩ := pool_stuck_done W s hW hstuck
  refine ⟨h1, h2, ?_⟩
  have hp := pool_invariant W parts s h
  rw [h1, h2] at hp
  simpa using hp

/-- C9 witness: the pool theorem instantiated at one worker and one
partition, evaluated at the initial state. -/
theorem pool_bounded_and_completes_witness :
    (poolInit ["a"]).running.length ≤ 1 :=
  (pool_bounded_and_completes 1 ["a"] (by decide)).1 (poolInit ["a"])
    Relation.ReflTransGen.refl
